import Mathlib

/-!
# Verification of the Berry solidifier (`be_solidifylib.c`)

Shallow embedding of the traversal-and-emission engine of the Berry
solidifier, together with proofs of the specification's claims.

Byte strings are modelled as `List Nat` (the bytes before the C NUL
terminator, so a C string is a list of bytes `b` with `0 < b < 256`).
Errors raised through `be_raise(vm, kind, msg)` are modelled as
`Except (String × String)` values carrying the `(kind, msg)` pair.
-/

namespace Solidify

/-! ## Identifier encoder (`toidentifier`, `toidentifier_length`) -/

/-- C `isalnum` on the ASCII range: `[0-9A-Za-z]`. -/
def isalnum (c : Nat) : Bool :=
  (48 ≤ c && c ≤ 57) || (65 ≤ c && c ≤ 90) || (97 ≤ c && c ≤ 122)

/-- The guard `isalnum(p[0]) || p[0] == '_'` from the source (`'_'` is 95). -/
def isIdentChar (c : Nat) : Bool := isalnum c || c == 95

/-- `hexdigit` from the source: low nibble to an uppercase hex digit
(`'A'` is 65, `'0'` is 48). -/
def hexdigit (v : Nat) : Nat :=
  if v &&& 0xF ≥ 10 then (v &&& 0xF) - 10 + 65 else (v &&& 0xF) + 48

/-- `toidentifier` from the source, producing the list of emitted bytes
(without the final NUL).  `'_'` is 95, `'X'` is 88.  The literal two-byte
sequence `_X` is rewritten `_X_`; identifier bytes pass through; any other
byte `b` becomes `_X` followed by the two uppercase hex digits of `b`. -/
def toidentifier : List Nat → List Nat
  | [] => []
  | 95 :: 88 :: p => 95 :: 88 :: 95 :: toidentifier p
  | c :: p =>
    if isIdentChar c then c :: toidentifier p
    else 95 :: 88 :: hexdigit ((c &&& 0xF0) >>> 4) :: hexdigit (c &&& 0x0F) :: toidentifier p

/-- `toidentifier_length` from the source: the exact number of bytes
`toidentifier` writes, including the terminating NUL (`len` starts at 1). -/
def toidentifier_length : List Nat → Nat
  | [] => 1
  | 95 :: 88 :: p => 3 + toidentifier_length p
  | c :: p =>
    if isIdentChar c then 1 + toidentifier_length p
    else 4 + toidentifier_length p

/-- Value of an uppercase hex digit, inverse of `hexdigit`. -/
def hexval (c : Nat) : Nat := if c ≥ 65 then c - 65 + 10 else c - 48

/-- Decoder obtained by inverting the three encoding rules of the spec
(§4.1): `_X_` decodes to the literal `_X`, `_X` followed by two hex digits
decodes to that byte, and any other byte passes through. -/
def decode : List Nat → List Nat
  | 95 :: 88 :: 95 :: rest => 95 :: 88 :: decode rest
  | 95 :: 88 :: h1 :: h2 :: rest => (hexval h1 * 16 + hexval h2) :: decode rest
  | c :: rest => c :: decode rest
  | [] => []


/-! ## Bytecode global-access validation (`m_solidify_proto`, lines 430-445) -/

/-- Modelled from the spec: the bytecode instruction decoder (`IGET_OP`,
`IGET_Bx` from `be_decoder.h`, which is not under src/) is abstracted by
representing each 32-bit bytecode word in decoded form, as its opcode tag
and its Bx field. -/
structure Instr where
  op : Nat
  bx : Nat
deriving DecidableEq

/-- Modelled from the spec: opcode tag of `OP_GETGBL` (`be_opcodes.h` is not
under src/); only equality of tags is tested, the numeric value is
immaterial. -/
def OP_GETGBL : Nat := 23

/-- Modelled from the spec: opcode tag of `OP_SETGBL`. -/
def OP_SETGBL : Nat := 24

/-- The global-access validation loop of `m_solidify_proto` (source lines
430-445): for each instruction, if its opcode is `GETGBL` or `SETGBL` and
its Bx field is greater than the VM builtin count, raise
`internal_error`. -/
def solidify_code : List Instr → Nat → Except (String × String) Unit
  | [], _ => .ok ()
  | i :: rest, builtin_count =>
    if i.op == OP_GETGBL || i.op == OP_SETGBL then
      if i.bx > builtin_count then
        .error ("internal_error", "Unsupported access to non-builtin global")
      else
        solidify_code rest builtin_count
    else
      solidify_code rest builtin_count

/-! ## Prototypes, parent classes and closures -/

/-- The object stored in the trailing slot of a prototype's sub-prototype
table: `ptab[nproto]` when `nproto > 0`, or the reinterpreted `ptab` pointer
itself when `nproto == 0` (`m_solidify_get_parentclass`, source lines
118-131).  `null` models a NULL pointer; `obj` carries the object's basetype
tag and, when it is a class, its name. -/
inductive PtabTail where
  | null
  | obj (basetype : Nat) (name : String)
deriving DecidableEq

/-- Modelled from the spec: the VM type tag `BE_CLASS` (`be_object.h` is not
under src/); only equality with the basetype of the ptab tail slot is
tested, the numeric value is immaterial. -/
def BE_CLASS : Nat := 7

/-- A function prototype, holding the fields of `bproto` that the claims
about this file touch: stack size, arity, vararg flags, sub-prototype table,
the trailing parent-class slot, function name, and bytecode. -/
inductive BProto where
  | mk (nstack argc varg : Nat) (subs : List BProto) (ptabTail : PtabTail)
       (name : String) (code : List Instr) : BProto

def BProto.nstack : BProto → Nat | .mk n _ _ _ _ _ _ => n
def BProto.argc : BProto → Nat | .mk _ a _ _ _ _ _ => a
def BProto.varg : BProto → Nat | .mk _ _ v _ _ _ _ => v
def BProto.subs : BProto → List BProto | .mk _ _ _ s _ _ _ => s
def BProto.ptabTail : BProto → PtabTail | .mk _ _ _ _ t _ _ => t
def BProto.name : BProto → String | .mk _ _ _ _ _ n _ => n
def BProto.code : BProto → List Instr | .mk _ _ _ _ _ _ c => c

/-- `m_solidify_get_parentclass` (source lines 118-131): read the trailing
ptab slot and return the class name if the slot holds an object whose
basetype is `BE_CLASS`, else `none`. -/
def m_solidify_get_parentclass (pr : BProto) : Option String :=
  match pr.ptabTail with
  | .null => none
  | .obj bt name => if bt = BE_CLASS then some name else none

/-- A closure: a prototype and the number of captured upvalues. -/
structure BClosure where
  proto : BProto
  nupvals : Nat

/-- Outcome of the borrowed-method check at the head of
`m_solidify_closure` (source lines 452-471). -/
inductive ClosureEmit where
  /-- The check passed (or there is no parent class): emission continues and
  the full body is emitted. -/
  | fullBody
  /-- Borrowed method: only a comment plus an `extern` declaration of the
  foreign symbol are emitted; the function returns without a body. -/
  | borrowedStub (comment : String) (externDecl : String)
  /-- The C code reaches `strcmp(parentclass_prefix, NULL)`: a null-pointer
  dereference (undefined behavior). -/
  | strcmpNull
deriving DecidableEq

/-- The control head of `m_solidify_closure` (source lines 452-471): get the
prototype's parent class; if present, build `"class_<ParentName>"` and
compare it (`strcmp`) with the caller-passed `prefixname` (a NULL
`prefixname` is modelled as `none`, and passing it to `strcmp` as the
`strcmpNull` outcome). -/
def m_solidify_closure_head (clo : BClosure) (prefixname : Option String) : ClosureEmit :=
  let func_name := clo.proto.name
  match m_solidify_get_parentclass clo.proto with
  | none => .fullBody
  | some parentclass_name =>
    let parentclass_prefix := "class_" ++ parentclass_name
    match prefixname with
    | none => .strcmpNull
    | some pn =>
      if parentclass_prefix ≠ pn then
        .borrowedStub
          ("// Borrowed method '" ++ func_name ++ "' from class '" ++ parentclass_prefix ++ "'\n")
          ("extern bclosure *" ++ parentclass_prefix ++ "_" ++ func_name ++ ";\n")
      else .fullBody

/-! ## Module emission and the entry point `m_dump` -/

/-- A value stored in a module's member table (`m_solidify_module`,
source lines 578-591); only string-keyed closures and classes are walked. -/
inductive ModValue where
  | closure (c : BClosure)
  | cls (name : String)
  | otherVal (tag : Nat)

/-- The closure-emission pass of `m_solidify_module` (source lines 578-591):
every string-keyed closure member is emitted by calling
`m_solidify_closure` with a NULL `prefixname`. -/
def m_solidify_module_closures (table : List (String × ModValue)) : List ClosureEmit :=
  table.filterMap fun kv =>
    match kv.2 with
    | .closure f => some (m_solidify_closure_head f none)
    | _ => none

/-- A value on the VM stack as seen by `m_dump` (source lines 614-646). -/
inductive BArg where
  | closure (c : BClosure)
  | cls (name : String)
  | module (table : List (String × ModValue))
  | str (s : String)
  | boolean (b : Bool)
  | instArg
  | other (tag : Nat)

/-- What `m_dump` did. -/
inductive DumpOutcome where
  /-- `top < 1`: no first argument, return nil without emitting. -/
  | noArgs
  /-- First argument was a closure: `m_solidify_closure` ran. -/
  | closureEmit (r : ClosureEmit)
  /-- First argument was a class: `m_solidify_class` ran. -/
  | classEmit (name : String)
  /-- First argument was a module: `m_solidify_module` ran. -/
  | moduleEmit (rs : List ClosureEmit)

/-- The entry point `m_dump` (source lines 614-646): with a first argument
present, read the optional `prefixname` from argument 4 (NULL unless a
string is passed there), then dispatch on the first argument's type:
closure, class and module run the matching emitter, anything else raises
`value_error`. -/
def m_dump (args : List BArg) : Except (String × String) DumpOutcome :=
  match args.head? with
  | none => .ok .noArgs
  | some v =>
    let prefixname : Option String :=
      match args.get? 3 with
      | some (.str s) => some s
      | _ => none
    match v with
    | .closure c => .ok (.closureEmit (m_solidify_closure_head c prefixname))
    | .cls n => .ok (.classEmit n)
    | .module tbl => .ok (.moduleEmit (m_solidify_module_closures tbl))
    | .str _ => .error ("value_error", "unsupported type")
    | .boolean _ => .error ("value_error", "unsupported type")
    | .instArg => .error ("value_error", "unsupported type")
    | .other _ => .error ("value_error", "unsupported type")

/-! ## Map emission (`m_solidify_map`, source lines 135-181)

The value of each entry is emitted by recursing into `m_solidify_bvalue`;
the claims about the map emitter concern the keys, the chain links and the
entry count, so slots are modelled as key plus raw `next` field. -/

/-- The type of a `bmapnode` key as dispatched by the source: `BE_NIL`
(slot unused), `BE_STRING`, `BE_INT`, or any other type tag (which raises
`internal_error`). -/
inductive MapKeyTy where
  | knil
  | kstr (s : List Nat)
  | kint (i : Int)
  | kother (tag : Nat)
deriving DecidableEq

/-- One slot of the map's raw slot array: its key and the raw 24-bit
`next` chain field. -/
structure MapSlot where
  key : MapKeyTy
  keyNext : Nat
deriving DecidableEq

/-- A `bmap`: the raw slot array and the used-entry count. -/
structure BMap where
  slots : List MapSlot
  count : Nat

/-- The raw `next`-field sentinel meaning "no next entry". -/
def sentinel : Nat := 0xFFFFFF

/-- A slot is used iff its key is not `BE_NIL` (source line 145). -/
def slotUsed (sl : MapSlot) : Bool := sl.key != MapKeyTy.knil

def defaultSlot : MapSlot := ⟨.knil, 0⟩

/-- One emitted key/value line of the map body:
`be_const_key[_weak](<ident>, <next>)` or `be_const_key_int(<i>, <next>)`
(the `_weak` choice tracks `str_literal` and does not affect the fields the
claims are about, so it is not modelled). -/
inductive EmittedKey where
  | estr (id : List Nat) (next : Int)
  | eint (i : Int) (next : Int)
deriving DecidableEq

/-- The emitted chain link: the raw field, with the `0xFFFFFF` sentinel
replaced by `-1` (source lines 148-151). -/
def emitNext (n : Nat) : Int := if n = sentinel then -1 else (n : Int)

/-- The slot loop of `m_solidify_map` (source lines 143-178): walk the raw
slot array by index, skip slots whose key is nil, emit a key line for
string and integer keys, and raise `internal_error` on any other key
type. -/
def map_entries_loop : List MapSlot → Except (String × String) (List EmittedKey)
  | [] => .ok []
  | sl :: rest =>
    match sl.key with
    | .knil => map_entries_loop rest
    | .kstr s =>
      (map_entries_loop rest).map fun es => .estr (toidentifier s) (emitNext sl.keyNext) :: es
    | .kint i =>
      (map_entries_loop rest).map fun es => .eint i (emitNext sl.keyNext) :: es
    | .kother t => .error ("internal_error", "Unsupported type in key: " ++ toString t)

/-- The new index of the entry at raw index `j` after all empty slots are
dropped: the number of used slots before it. -/
def compactIndex (slots : List MapSlot) (j : Nat) : Nat :=
  ((slots.take j).filter slotUsed).length

/-- Modelled from the spec: `be_map_compact` (`be_map.c` is not under
src/).  Per §3 and §4.3 compaction drops the empty slots before
serialization so that the used entries occupy consecutive slots; the chain
links go on referencing the same entries ("lookup semantics are identical
after reconstruction", "skipped slots must not shift indices of later
slots"), so each non-sentinel link is renumbered to the target's new
index. -/
def be_map_compact (m : BMap) : BMap :=
  { slots := (m.slots.filter slotUsed).map fun sl =>
      { sl with keyNext := if sl.keyNext = sentinel then sentinel
                           else compactIndex m.slots sl.keyNext },
    count := m.count }

/-- `m_solidify_map` (source lines 135-181): compact the map first, then
run the slot loop. -/
def m_solidify_map (m : BMap) : Except (String × String) (List EmittedKey) :=
  map_entries_loop (be_map_compact m).slots

/-- Modelled from the spec: the well-formedness invariant the map
implementation (`be_map.c`, not under src/) maintains on the slot array —
`count` counts the used slots, slot indices fit the 24-bit `next` field,
and every used slot's non-sentinel chain link points at a used slot of the
array. -/
def MapInvariant (m : BMap) : Prop :=
  m.count = (m.slots.filter slotUsed).length ∧
  m.slots.length ≤ sentinel ∧
  ∀ sl ∈ m.slots, slotUsed sl = true → sl.keyNext ≠ sentinel →
    sl.keyNext < m.slots.length ∧ slotUsed (m.slots.getD sl.keyNext defaultSlot) = true

instance (m : BMap) : Decidable (MapInvariant m) := by
  unfold MapInvariant
  infer_instance

/-- What the slot loop emits for a single slot, if anything. -/
def emitSlot (sl : MapSlot) : Option EmittedKey :=
  match sl.key with
  | .knil => none
  | .kstr s => some (.estr (toidentifier s) (emitNext sl.keyNext))
  | .kint i => some (.eint i (emitNext sl.keyNext))
  | .kother _ => none

/-- The chain link of an emitted entry. -/
def nextOf : EmittedKey → Int
  | .estr _ n => n
  | .eint _ n => n

/-! ## Sub-prototype section of `m_solidify_proto` (source lines 379-402) -/

/-- One element of the emitted sub-prototype pointer array. -/
inductive SubProtoEntry where
  /-- A recursively emitted sub-prototype with its constructed name
  (`snprintf(sub_name, ..., "%s_%d", func_name, i)`; the buffer
  `strlen(func_name) + 10` never truncates for the index widths a prototype
  can hold). -/
  | sub (p : BProto) (name : String)
  /-- The trailing parent-class pointer (`&be_class_<name>`) or `NULL`. -/
  | parentRef (c : Option String)

/-- The sub-prototype section of `m_solidify_proto` (source lines 379-402):
with `nproto > 0`, an array of the `nproto` recursively emitted
sub-prototypes followed by one extra slot holding the parent class (or
`NULL`); with `nproto == 0`, a bare parent-class reference (or `NULL`). -/
def m_solidify_proto_subsection (pr : BProto) (func_name : String) :
    Sum (Option String) (List SubProtoEntry) :=
  if pr.subs.length > 0 then
    .inr ((pr.subs.enum.map fun e => SubProtoEntry.sub e.2 (func_name ++ "_" ++ toString e.1)) ++
          [.parentRef (m_solidify_get_parentclass pr)])
  else
    .inl (m_solidify_get_parentclass pr)

/-! ## Instance emission (`m_solidify_bvalue`, source lines 287-318) -/

/-- The class an instance belongs to, as tested by the source's pointer
comparisons against `be_class_bytes`, `be_class_map`, `be_class_list`. -/
inductive InsClassRef where
  | bytes
  | map
  | list
  | other (name : String)
deriving DecidableEq

/-- An instance value: its class, its `super`/`sub` linkage (modelled as
presence booleans), and — for the `bytes` class — the byte buffer held at
member slot 0 with the length at slot 1. -/
structure BInstance where
  cls : InsClassRef
  hasSuper : Bool
  hasSub : Bool
  memberBytes : List Nat

/-- Modelled from the spec: `be_bytes_tohex` (`be_byteslib.c` is not under
src/) hex-encodes a byte buffer with uppercase digits. -/
def bytesToHex (bs : List Nat) : List Nat :=
  bs.flatMap fun b => [hexdigit ((b &&& 0xF0) >>> 4), hexdigit (b &&& 0x0F)]

/-- What the `BE_INSTANCE` case emits when it succeeds. -/
inductive InstanceEmit where
  /-- `be_const_bytes_instance(<hexdump>)` -/
  | bytesInstance (hex : List Nat)
  /-- `be_const_simple_instance(be_nested_simple_instance(&be_class_<map|list>, ...))`
  (the recursive emission of member 0 is elided). -/
  | simpleInstance (clsName : String)
deriving DecidableEq

/-- The `BE_INSTANCE` case of `m_solidify_bvalue` (source lines 287-318):
the `bytes` class is hex-dumped; otherwise an instance with a `super` or
`sub` link raises `internal_error`; otherwise the `map` and `list` helper
classes are emitted as simple instances and any other class raises
`internal_error`. -/
def m_solidify_instance (ins : BInstance) : Except (String × String) InstanceEmit :=
  if ins.cls = .bytes then
    .ok (.bytesInstance (bytesToHex ins.memberBytes))
  else if ins.hasSuper || ins.hasSub then
    .error ("internal_error", "instance must not have a super/sub class")
  else
    match ins.cls with
    | .map => .ok (.simpleInstance "map")
    | .list => .ok (.simpleInstance "list")
    | _ => .error ("internal_error", "unsupported class")

/-! ## String emission (`m_solidify_bvalue`, source lines 228-256) -/

/-- One write to the output sink: through the fixed 768-byte formatted line
buffer (`logfmt`) or through the unformatted size-unbounded path
(`lognofmt`). -/
inductive WriteEv where
  | fmt (s : List Nat)
  | nofmt (s : List Nat)
deriving DecidableEq

/-- ASCII bytes of a Lean string literal. -/
def ascii (s : String) : List Nat := s.data.map Char.toNat

/-- The `BE_STRING` case of `m_solidify_bvalue` (source lines 228-256) as
the sequence of writes it performs: strings of byte length at least 255 go
through three separate unformatted writes as `be_nested_str_long(<ident>)`;
shorter strings go through one formatted write as `be_nested_str(<ident>)`
or `be_nested_str_weak(<ident>)` depending on `str_literal`.  (The
stack-versus-heap choice of the identifier buffer at 64 bytes does not
affect the writes and is elided.) -/
def m_solidify_string (str_literal : Bool) (s : List Nat) : List WriteEv :=
  let id_buf := toidentifier s
  if s.length ≥ 255 then
    [.nofmt (ascii "be_nested_str_long("), .nofmt id_buf, .nofmt (ascii ")")]
  else if !str_literal then
    [.fmt (ascii "be_nested_str(" ++ id_buf ++ ascii ")")]
  else
    [.fmt (ascii "be_nested_str_weak(" ++ id_buf ++ ascii ")")]

/-! ### Lemmas about the encoder -/

theorem hexdigit_le (v : Nat) : hexdigit v ≤ 70 ∧ 48 ≤ hexdigit v := by
  have h : v &&& 15 ≤ 15 := Nat.and_le_right
  unfold hexdigit
  split <;> omega

theorem hexdigit_ne_95 (v : Nat) : hexdigit v ≠ 95 := by
  have h := hexdigit_le v
  omega

set_option maxRecDepth 4000 in
theorem hexval_hexdigit_byte :
    ∀ c < 256, hexval (hexdigit ((c &&& 0xF0) >>> 4)) * 16 + hexval (hexdigit (c &&& 0x0F)) = c := by
  decide

theorem toid_pass (c : Nat) (p : List Nat)
    (hne : ∀ p1, c = 95 → p = 88 :: p1 → False) (hid : isIdentChar c = true) :
    toidentifier (c :: p) = c :: toidentifier p := by
  rw [toidentifier.eq_def]
  split
  · simp_all
  · rename_i heq
    injection heq with h1 h2
    exact (hne _ h1 h2).elim
  · rename_i heq
    injection heq with h1 h2
    subst h1; subst h2
    simp [hid]

theorem toid_esc (c : Nat) (p : List Nat)
    (hne : ∀ p1, c = 95 → p = 88 :: p1 → False) (hid : isIdentChar c = false) :
    toidentifier (c :: p) =
      95 :: 88 :: hexdigit ((c &&& 0xF0) >>> 4) :: hexdigit (c &&& 0x0F) :: toidentifier p := by
  rw [toidentifier.eq_def]
  split
  · simp_all
  · rename_i heq
    injection heq with h1 h2
    exact (hne _ h1 h2).elim
  · rename_i heq
    injection heq with h1 h2
    subst h1; subst h2
    simp [hid]

theorem decode_other (c : Nat) (rest : List Nat) (h : c ≠ 95) :
    decode (c :: rest) = c :: decode rest := by
  rw [decode.eq_def]
  split
  · simp_all
  · simp_all
  · rename_i heq
    injection heq with h1 h2
    subst h1; subst h2; rfl
  · simp_all

theorem decode_95 (t : List Nat) (h : t.head? ≠ some 88) :
    decode (95 :: t) = 95 :: decode t := by
  rw [decode.eq_def]
  split
  · rename_i heq
    injection heq with h1 h2
    simp [h2] at h
  · rename_i heq
    injection heq with h1 h2
    simp [h2] at h
  · rename_i heq
    injection heq with h1 h2
    subst h1; subst h2; rfl
  · simp_all

theorem decode_esc (h1 h2 : Nat) (rest : List Nat) (h : h1 ≠ 95) :
    decode (95 :: 88 :: h1 :: h2 :: rest) = (hexval h1 * 16 + hexval h2) :: decode rest := by
  rw [decode.eq_def]
  split
  · rename_i heq
    injection heq with e1 e2
    injection e2 with e3 e4
    injection e4 with e5 e6
    exact absurd e5 h
  · rename_i heq
    injection heq with e1 e2
    injection e2 with e3 e4
    injection e4 with e5 e6
    injection e6 with e7 e8
    subst e5; subst e7; subst e8; rfl
  · rename_i hno1 hno2 heq
    injection heq with e1 e2
    exact (hno2 h1 h2 rest e1.symm e2.symm).elim
  · simp_all

theorem toid_head_88 (p : List Nat) (h : (toidentifier p).head? = some 88) :
    p.head? = some 88 := by
  induction p using toidentifier.induct with
  | case1 => simp [toidentifier] at h
  | case2 p ih => simp [toidentifier] at h
  | case3 c p hne hid ih =>
    rw [toid_pass c p hne hid] at h
    simp at h
    simp [h]
  | case4 c p hne hid ih =>
    rw [toid_esc c p hne (by simpa using hid)] at h
    simp at h

theorem decode_toidentifier (s : List Nat) (hb : ∀ b ∈ s, 0 < b ∧ b < 256) :
    decode (toidentifier s) = s := by
  induction s using toidentifier.induct with
  | case1 => rfl
  | case2 p ih =>
    have hb' : ∀ b ∈ p, 0 < b ∧ b < 256 := fun b hbm => hb b (by simp [hbm])
    rw [toidentifier]
    rw [show decode (95 :: 88 :: 95 :: toidentifier p) = 95 :: 88 :: decode (toidentifier p) by
      simp [decode]]
    rw [ih hb']
  | case3 c p hne hid ih =>
    have hb' : ∀ b ∈ p, 0 < b ∧ b < 256 := fun b hbm => hb b (by simp [hbm])
    rw [toid_pass c p hne hid]
    by_cases hc : c = 95
    · subst hc
      have hp : p.head? ≠ some 88 := by
        intro hh
        cases p with
        | nil => simp at hh
        | cons x q =>
          simp at hh
          exact hne q rfl (by rw [hh])
      have ht : (toidentifier p).head? ≠ some 88 := fun hh => hp (toid_head_88 p hh)
      rw [decode_95 _ ht, ih hb']
    · rw [decode_other c _ hc, ih hb']
  | case4 c p hne hid ih =>
    have hb' : ∀ b ∈ p, 0 < b ∧ b < 256 := fun b hbm => hb b (by simp [hbm])
    rw [toid_esc c p hne (by simpa using hid)]
    rw [decode_esc _ _ _ (hexdigit_ne_95 _)]
    rw [ih hb']
    have hc : c < 256 := (hb c (by simp)).2
    rw [hexval_hexdigit_byte c hc]

theorem tlen_pass (c : Nat) (p : List Nat)
    (hne : ∀ p1, c = 95 → p = 88 :: p1 → False) (hid : isIdentChar c = true) :
    toidentifier_length (c :: p) = 1 + toidentifier_length p := by
  rw [toidentifier_length.eq_def]
  split
  · simp_all
  · rename_i heq
    injection heq with h1 h2
    exact (hne _ h1 h2).elim
  · rename_i heq
    injection heq with h1 h2
    subst h1; subst h2
    simp [hid]

theorem tlen_esc (c : Nat) (p : List Nat)
    (hne : ∀ p1, c = 95 → p = 88 :: p1 → False) (hid : isIdentChar c = false) :
    toidentifier_length (c :: p) = 4 + toidentifier_length p := by
  rw [toidentifier_length.eq_def]
  split
  · simp_all
  · rename_i heq
    injection heq with h1 h2
    exact (hne _ h1 h2).elim
  · rename_i heq
    injection heq with h1 h2
    subst h1; subst h2
    simp [hid]

theorem toidentifier_no_nul (s : List Nat) : 0 ∉ toidentifier s := by
  induction s using toidentifier.induct with
  | case1 => simp [toidentifier]
  | case2 p ih =>
    rw [toidentifier]
    simp [ih]
  | case3 c p hne hid ih =>
    rw [toid_pass c p hne hid]
    have hc : 0 < c := by
      simp [isIdentChar, isalnum] at hid
      omega
    intro hm
    rcases List.mem_cons.mp hm with h | h
    · omega
    · exact ih h
  | case4 c p hne hid ih =>
    rw [toid_esc c p hne (by simpa using hid)]
    have e1 := hexdigit_le ((c &&& 0xF0) >>> 4)
    have e2 := hexdigit_le (c &&& 0x0F)
    intro hm
    simp only [List.mem_cons] at hm
    rcases hm with h | h | h | h | h
    · omega
    · omega
    · omega
    · omega
    · exact ih h

/-! ### Claim theorems for the identifier encoder -/

/-- **C1.** For every byte string `s` (NUL-free bytes, as a C string),
decoding the output of the identifier encoder recovers `s` exactly:
`decode (toidentifier s) = s`, and the encoding is injective. -/
theorem C1_toidentifier_roundtrip (s : List Nat) (hb : ∀ b ∈ s, 0 < b ∧ b < 256) :
    decode (toidentifier s) = s ∧
    ∀ s2, (∀ b ∈ s2, 0 < b ∧ b < 256) → toidentifier s = toidentifier s2 → s = s2 := by
  refine ⟨decode_toidentifier s hb, ?_⟩
  intro s2 hb2 h
  have h1 := decode_toidentifier s hb
  rw [h, decode_toidentifier s2 hb2] at h1
  exact h1.symm

/-- Witness for C1 at the concrete byte string `"k_X?"` = `[107, 95, 88, 63]`. -/
theorem C1_toidentifier_roundtrip_witness :
    decode (toidentifier [107, 95, 88, 63]) = [107, 95, 88, 63] :=
  (C1_toidentifier_roundtrip [107, 95, 88, 63] (by decide)).1

/-- **C7.** The length-estimation function returns exactly the number of bytes
the identifier encoder writes including the terminating NUL: the encoder's
output contains no NUL byte (so its C `strlen` is its length), and
`toidentifier_length s = strlen (toidentifier s) + 1`. -/
theorem C7_toidentifier_length_exact (s : List Nat) :
    toidentifier_length s = (toidentifier s).length + 1 ∧ 0 ∉ toidentifier s := by
  refine ⟨?_, toidentifier_no_nul s⟩
  induction s using toidentifier.induct with
  | case1 => rfl
  | case2 p ih =>
    rw [toidentifier, toidentifier_length]
    simp [ih]
    omega
  | case3 c p hne hid ih =>
    rw [toid_pass c p hne hid, tlen_pass c p hne hid]
    simp [ih]
    omega
  | case4 c p hne hid ih =>
    have hid' : isIdentChar c = false := by simpa using hid
    rw [toid_esc c p hne hid', tlen_esc c p hne hid']
    simp [ih]
    omega

/-! ### Claim theorems for bytecode validation, closures, dump -/

theorem solidify_code_spec (code : List Instr) (n : Nat) :
    (solidify_code code n = .ok () ↔
      ∀ i ∈ code, (i.op = OP_GETGBL ∨ i.op = OP_SETGBL) → i.bx ≤ n) ∧
    (solidify_code code n =
        .error ("internal_error", "Unsupported access to non-builtin global") ↔
      ∃ i ∈ code, (i.op = OP_GETGBL ∨ i.op = OP_SETGBL) ∧ n < i.bx) := by
  induction code with
  | nil => simp [solidify_code]
  | cons i rest ih =>
    by_cases hop : (i.op == OP_GETGBL || i.op == OP_SETGBL) = true
    · have hop' : i.op = OP_GETGBL ∨ i.op = OP_SETGBL := by
        simpa [Nat.beq_eq, decide_eq_true_eq] using hop
      by_cases hbx : i.bx > n
      · constructor
        · simp only [solidify_code, hop, if_pos hbx]
          constructor
          · intro hcontra; cases hcontra
          · intro hall
            exact absurd (hall i (by simp) hop') (by omega)
        · simp only [solidify_code, hop, if_pos hbx]
          constructor
          · intro _; exact ⟨i, by simp, hop', hbx⟩
          · intro _; rfl
      · have hco : solidify_code (i :: rest) n = solidify_code rest n := by
          simp only [solidify_code, hop, if_neg hbx]
          simp
        rw [hco]
        constructor
        · rw [ih.1]
          constructor
          · intro hall j hj hopj
            rcases List.mem_cons.mp hj with h | h
            · subst h; omega
            · exact hall j h hopj
          · intro hall j hj hopj
            exact hall j (by simp [hj]) hopj
        · rw [ih.2]
          constructor
          · rintro ⟨j, hj, hopj, hbxj⟩
            exact ⟨j, by simp [hj], hopj, hbxj⟩
          · rintro ⟨j, hj, hopj, hbxj⟩
            rcases List.mem_cons.mp hj with h | h
            · subst h; omega
            · exact ⟨j, h, hopj, hbxj⟩
    · have hop' : ¬(i.op = OP_GETGBL ∨ i.op = OP_SETGBL) := by
        simpa [Nat.beq_eq, decide_eq_true_eq] using hop
      have hco : solidify_code (i :: rest) n = solidify_code rest n := by
        simp only [solidify_code, hop]
        simp
      rw [hco]
      constructor
      · rw [ih.1]
        constructor
        · intro hall j hj hopj
          rcases List.mem_cons.mp hj with h | h
          · subst h; exact absurd hopj hop'
          · exact hall j h hopj
        · intro hall j hj hopj
          exact hall j (by simp [hj]) hopj
      · rw [ih.2]
        constructor
        · rintro ⟨j, hj, hopj, hbxj⟩
          exact ⟨j, by simp [hj], hopj, hbxj⟩
        · rintro ⟨j, hj, hopj, hbxj⟩
          rcases List.mem_cons.mp hj with h | h
          · subst h; exact absurd hopj hop'
          · exact ⟨j, h, hopj, hbxj⟩

/-- **C2.** During prototype emission, for every bytecode instruction whose
opcode is `GETGBL` or `SETGBL`, an `internal_error` is raised exactly when
the decoded Bx field exceeds the VM builtin count, and the emission of the
code section succeeds exactly when every such instruction satisfies
`Bx ≤ builtin_count`. -/
theorem C2_global_access_validated (pr : BProto) (builtin_count : Nat) :
    (solidify_code pr.code builtin_count = .ok () ↔
      ∀ i ∈ pr.code, (i.op = OP_GETGBL ∨ i.op = OP_SETGBL) → i.bx ≤ builtin_count) ∧
    (solidify_code pr.code builtin_count =
        .error ("internal_error", "Unsupported access to non-builtin global") ↔
      ∃ i ∈ pr.code, (i.op = OP_GETGBL ∨ i.op = OP_SETGBL) ∧ builtin_count < i.bx) :=
  solidify_code_spec pr.code builtin_count

/-- **C3.** For every closure whose prototype carries a parent class `P`,
the closure emitter emits the full body if and only if the caller-passed
prefix equals `"class_" ++ P`; when they differ it emits only the comment
and the `extern` declaration of the foreign symbol and returns without a
body. -/
theorem C3_borrowed_method (clo : BClosure) (P pn : String)
    (hpar : m_solidify_get_parentclass clo.proto = some P) :
    (m_solidify_closure_head clo (some pn) = .fullBody ↔ pn = "class_" ++ P) ∧
    (pn ≠ "class_" ++ P →
      m_solidify_closure_head clo (some pn) =
        .borrowedStub
          ("// Borrowed method '" ++ clo.proto.name ++ "' from class '" ++
            ("class_" ++ P) ++ "'\n")
          ("extern bclosure *" ++ ("class_" ++ P) ++ "_" ++ clo.proto.name ++ ";\n")) := by
  unfold m_solidify_closure_head
  rw [hpar]
  by_cases h : ("class_" ++ P) = pn
  · subst h
    simp
  · constructor
    · simp only [if_neg, h]
      have : ("class_" ++ P ≠ pn) = True := by simp [h]
      simp [h]
      intro hcontra
      exact absurd hcontra.symm h
    · intro _
      simp [h]

/-- Witness for C3: the method `m` whose prototype's parent class is `A`,
emitted with prefix `class_B`, yields the borrowed-method stub. -/
theorem C3_borrowed_method_witness :
    m_solidify_closure_head ⟨.mk 1 0 0 [] (.obj 7 "A") "m" [], 0⟩ (some "class_B") =
      .borrowedStub
        ("// Borrowed method '" ++ "m" ++ "' from class '" ++ ("class_" ++ "A") ++ "'\n")
        ("extern bclosure *" ++ ("class_" ++ "A") ++ "_" ++ "m" ++ ";\n") :=
  (C3_borrowed_method ⟨.mk 1 0 0 [] (.obj 7 "A") "m" [], 0⟩ "A" "class_B" rfl).2 (by decide)

/-- **C9.** For every invocation of `solidify.dump` with a first argument
present: a closure, class or module first argument runs the matching
emitter, and any other value type raises `value_error`. -/
theorem C9_dump_dispatch (args : List BArg) (v : BArg) (h : args.head? = some v) :
    (∀ c, v = .closure c → ∃ r, m_dump args = .ok (.closureEmit r)) ∧
    (∀ n, v = .cls n → m_dump args = .ok (.classEmit n)) ∧
    (∀ tbl, v = .module tbl →
      m_dump args = .ok (.moduleEmit (m_solidify_module_closures tbl))) ∧
    ((∀ c, v ≠ .closure c) → (∀ n, v ≠ .cls n) → (∀ tbl, v ≠ .module tbl) →
      m_dump args = .error ("value_error", "unsupported type")) := by
  unfold m_dump
  rw [h]
  cases v with
  | closure c => simp
  | cls n => simp
  | module tbl => simp
  | str s => simp
  | boolean b => simp
  | instArg => simp
  | other t => simp

/-- Witness for C9: dumping an integer-like value (neither closure, class
nor module) raises `value_error`. -/
theorem C9_dump_dispatch_witness :
    m_dump [.other 1] = .error ("value_error", "unsupported type") :=
  (C9_dump_dispatch [.other 1] (.other 1) rfl).2.2.2
    (by intro c hc; cases hc) (by intro n hn; cases hn) (by intro tbl ht; cases ht)

/-- **C10.** The closure emitter is crash-free only when `prefixname` is
non-NULL whenever the prototype carries a parent class: with a parent class
and a NULL `prefixname` the code reaches `strcmp(parentclass_prefix, NULL)`;
with a non-NULL `prefixname` it never does; the module emitter invokes the
closure emitter with NULL `prefixname` for every string-keyed closure
member; and a top-level dump of a closure without an explicit prefix
argument invokes it with NULL `prefixname` as well. -/
theorem C10_null_prefix_strcmp (clo : BClosure) :
    (m_solidify_closure_head clo none = .strcmpNull ↔
      (m_solidify_get_parentclass clo.proto).isSome = true) ∧
    (∀ pn, m_solidify_closure_head clo (some pn) ≠ .strcmpNull) ∧
    (∀ (tbl : List (String × ModValue)) (k : String),
      (k, ModValue.closure clo) ∈ tbl →
      m_solidify_closure_head clo none ∈ m_solidify_module_closures tbl) ∧
    (∀ args : List BArg, args.head? = some (.closure clo) → args.get? 3 = none →
      m_dump args = .ok (.closureEmit (m_solidify_closure_head clo none))) := by
  refine ⟨?_, ?_, ?_, ?_⟩
  · unfold m_solidify_closure_head
    cases hp : m_solidify_get_parentclass clo.proto with
    | none => simp
    | some P => simp
  · intro pn
    unfold m_solidify_closure_head
    cases hp : m_solidify_get_parentclass clo.proto with
    | none => simp
    | some P =>
      dsimp only
      split <;> simp
  · intro tbl k hmem
    exact List.mem_filterMap.mpr ⟨(k, ModValue.closure clo), hmem, rfl⟩
  · intro args h1 h3
    unfold m_dump
    rw [h1, h3]

/-- Witness for C10: a top-level dump of a closure whose prototype has
parent class `A`, with no prefix argument, reaches the null `strcmp`. -/
theorem C10_null_prefix_strcmp_witness :
    m_dump [.closure ⟨.mk 1 0 0 [] (.obj 7 "A") "m" [], 0⟩] =
      .ok (.closureEmit .strcmpNull) := by
  have h := C10_null_prefix_strcmp ⟨.mk 1 0 0 [] (.obj 7 "A") "m" [], 0⟩
  have h4 := h.2.2.2 [.closure ⟨.mk 1 0 0 [] (.obj 7 "A") "m" [], 0⟩] rfl rfl
  have h1 := h.1.mpr rfl
  rw [h1] at h4
  exact h4

/-- **C5.** For every prototype `p` with `nproto > 0`, the emitted
sub-prototype pointer array has length exactly `nproto + 1`, its first
`nproto` elements are the recursively emitted sub-prototypes named
`"<parent>_<index>"`, and its last element is the parent-class pointer or
`NULL`; with `nproto == 0` a bare parent-class reference (or `NULL`) is
emitted instead of an array. -/
theorem C5_subproto_array (pr : BProto) (fn : String) :
    (pr.subs.length > 0 →
      ∃ l, m_solidify_proto_subsection pr fn = .inr l ∧
        l.length = pr.subs.length + 1 ∧
        (∀ j sp, pr.subs.get? j = some sp →
          l.get? j = some (.sub sp (fn ++ "_" ++ toString j))) ∧
        l.get? pr.subs.length = some (.parentRef (m_solidify_get_parentclass pr))) ∧
    (pr.subs.length = 0 →
      m_solidify_proto_subsection pr fn = .inl (m_solidify_get_parentclass pr)) := by
  constructor
  · intro hpos
    refine ⟨(pr.subs.enum.map fun e => SubProtoEntry.sub e.2 (fn ++ "_" ++ toString e.1)) ++
            [.parentRef (m_solidify_get_parentclass pr)], ?_, ?_, ?_, ?_⟩
    · simp [m_solidify_proto_subsection, hpos]
    · simp [List.enum_length]
    · intro j sp hsp
      have hj : j < pr.subs.length := by
        by_contra hc
        rw [List.get?_eq_none.mpr (by omega)] at hsp
        cases hsp
      rw [List.get?_append (by simp [List.enum_length]; omega)]
      rw [List.get?_map, List.get?_enum, hsp]
      rfl
    · rw [List.get?_append_right (by simp [List.enum_length])]
      simp [List.enum_length]
  · intro hz
    simp [m_solidify_proto_subsection, hz]

/-- Witness for C5 at a prototype with one sub-prototype and parent class
`A`: the emitted array has length 2, its first element is the sub-prototype
named `outer_0`, and its last element is the parent-class pointer. -/
theorem C5_subproto_array_witness :
    ∃ l, m_solidify_proto_subsection
        (.mk 1 0 0 [.mk 0 0 0 [] .null "inner" []] (.obj 7 "A") "outer" []) "outer" = .inr l ∧
      l.length = 2 ∧
      l.get? 0 = some (.sub (.mk 0 0 0 [] .null "inner" []) ("outer" ++ "_" ++ toString 0)) ∧
      l.get? 1 = some (.parentRef (some "A")) := by
  obtain ⟨l, h1, h2, h3, h4⟩ :=
    (C5_subproto_array (.mk 1 0 0 [.mk 0 0 0 [] .null "inner" []] (.obj 7 "A") "outer" [])
      "outer").1 (by decide)
  exact ⟨l, h1, h2, h3 0 _ rfl, h4⟩

/-- Counterexample to **C6** as stated: an instance of a class `Foo` outside
`{bytes, map, list}` that carries a `super` link raises the super/sub
`internal_error`, not `"unsupported class"` as the claim asserts for every
instance of a class outside the set. -/
theorem C6_counterexample :
    m_solidify_instance ⟨.other "Foo", true, false, []⟩ =
      .error ("internal_error", "instance must not have a super/sub class") ∧
    ¬ (m_solidify_instance ⟨.other "Foo", true, false, []⟩ =
        .error ("internal_error", "unsupported class")) := by
  constructor
  · rfl
  · intro h
    rw [show m_solidify_instance ⟨.other "Foo", true, false, []⟩ =
        .error ("internal_error", "instance must not have a super/sub class") from rfl] at h
    simp at h

/-- **C6 (amended).** Emission of an instance succeeds exactly when it is of
the `bytes` class or of the `map`/`list` helper class with no `super` and no
`sub` linkage; a non-`bytes` instance with a `super` or `sub` link raises
the super/sub `internal_error` (this check comes first), and an instance of
a class outside `{bytes, map, list}` with no such link raises
`internal_error "unsupported class"`. -/
theorem C6_instance_rules (ins : BInstance) :
    ((∃ out, m_solidify_instance ins = .ok out) ↔
      (ins.cls = .bytes ∨
        ((ins.cls = .map ∨ ins.cls = .list) ∧ ins.hasSuper = false ∧ ins.hasSub = false))) ∧
    (ins.cls ≠ .bytes → (ins.hasSuper || ins.hasSub) = true →
      m_solidify_instance ins =
        .error ("internal_error", "instance must not have a super/sub class")) ∧
    (∀ name, ins.cls = .other name → ins.hasSuper = false → ins.hasSub = false →
      m_solidify_instance ins = .error ("internal_error", "unsupported class")) := by
  obtain ⟨cls, sup, sub, mb⟩ := ins
  cases cls <;> cases sup <;> cases sub <;> simp [m_solidify_instance]

/-- Witness for C6 (amended) at an instance of class `Foo` with no
super/sub linkage. -/
theorem C6_instance_rules_witness :
    m_solidify_instance ⟨.other "Foo", false, false, []⟩ =
      .error ("internal_error", "unsupported class") :=
  (C6_instance_rules ⟨.other "Foo", false, false, []⟩).2.2 "Foo" rfl rfl rfl

/-- **C8.** A string of byte length at least 255 is emitted as
`be_nested_str_long(<ident>)` through exactly three separate unformatted
writes to the sink (no formatted line buffer involved); a shorter string is
emitted through a single formatted write as `be_nested_str(<ident>)` or
`be_nested_str_weak(<ident>)` according to `str_literal`. -/
theorem C8_long_string_writes (lit : Bool) (s : List Nat) :
    (s.length ≥ 255 →
      m_solidify_string lit s =
        [.nofmt (ascii "be_nested_str_long("), .nofmt (toidentifier s), .nofmt (ascii ")")] ∧
      (m_solidify_string lit s).length = 3 ∧
      (∀ ev ∈ m_solidify_string lit s, ∃ t, ev = .nofmt t)) ∧
    (s.length < 255 → lit = false →
      m_solidify_string lit s = [.fmt (ascii "be_nested_str(" ++ toidentifier s ++ ascii ")")]) ∧
    (s.length < 255 → lit = true →
      m_solidify_string lit s =
        [.fmt (ascii "be_nested_str_weak(" ++ toidentifier s ++ ascii ")")]) := by
  refine ⟨?_, ?_, ?_⟩
  · intro h
    have he : m_solidify_string lit s =
        [.nofmt (ascii "be_nested_str_long("), .nofmt (toidentifier s), .nofmt (ascii ")")] := by
      simp [m_solidify_string, h]
    refine ⟨he, by rw [he]; rfl, ?_⟩
    rw [he]
    intro ev hev
    rcases List.mem_cons.mp hev with h1 | h1
    · exact ⟨_, h1⟩
    rcases List.mem_cons.mp h1 with h2 | h2
    · exact ⟨_, h2⟩
    rcases List.mem_cons.mp h2 with h3 | h3
    · exact ⟨_, h3⟩
    · cases h3
  · intro h hl
    subst hl
    simp [m_solidify_string, Nat.not_le.mpr h]
  · intro h hl
    subst hl
    simp [m_solidify_string, Nat.not_le.mpr h]

/-- Witness for C8 at a concrete 255-byte string (255 copies of `'a'`). -/
theorem C8_long_string_writes_witness :
    (m_solidify_string false (List.replicate 255 97)).length = 3 :=
  ((C8_long_string_writes false (List.replicate 255 97)).1
    (by rw [List.length_replicate])).2.1

/-! ### Lemmas and claim theorem for the map emitter -/

theorem loop_no_other (slots : List MapSlot)
    (hk : ∀ sl ∈ slots, ∀ t, sl.key ≠ .kother t) :
    map_entries_loop slots = .ok (slots.filterMap emitSlot) := by
  induction slots with
  | nil => rfl
  | cons sl rest ih =>
    have hk' : ∀ s ∈ rest, ∀ t, s.key ≠ .kother t := fun s hs => hk s (by simp [hs])
    cases hkey : sl.key with
    | knil =>
      rw [map_entries_loop]
      simp only [hkey]
      rw [ih hk']
      simp [List.filterMap_cons, emitSlot, hkey]
    | kstr s =>
      rw [map_entries_loop]
      simp only [hkey]
      rw [ih hk']
      simp [List.filterMap_cons, emitSlot, hkey, Except.map]
    | kint i =>
      rw [map_entries_loop]
      simp only [hkey]
      rw [ih hk']
      simp [List.filterMap_cons, emitSlot, hkey, Except.map]
    | kother t =>
      exact absurd hkey (hk sl (by simp) t)

theorem filterMap_all_some {α β : Type} (f : α → Option β) (l : List α)
    (h : ∀ a ∈ l, (f a).isSome = true) :
    (l.filterMap f).length = l.length ∧
    ∀ j, (l.filterMap f).get? j = (l.get? j).bind f := by
  induction l with
  | nil => simp
  | cons a l ih =>
    obtain ⟨b, hb⟩ := Option.isSome_iff_exists.mp (h a (by simp))
    have ih' := ih (fun a ha => h a (by simp [ha]))
    rw [List.filterMap_cons, hb]
    refine ⟨by simp [ih'.1], ?_⟩
    intro j
    cases j with
    | zero => simp [hb]
    | succ j => simpa using ih'.2 j

theorem compactIndex_lt (slots : List MapSlot) (j : Nat) (hj : j < slots.length)
    (hused : slotUsed (slots.getD j defaultSlot) = true) :
    compactIndex slots j < (slots.filter slotUsed).length := by
  have hsplit : slots = slots.take j ++ slots.drop j := (List.take_append_drop j slots).symm
  have hdrop : slots.drop j = slots.get ⟨j, hj⟩ :: slots.drop (j + 1) :=
    List.drop_eq_get_cons hj
  have hget : slots.getD j defaultSlot = slots.get ⟨j, hj⟩ := by
    rw [List.getD_eq_get?]
    rw [List.get?_eq_get hj]
    rfl
  rw [hget] at hused
  conv_rhs => rw [hsplit]
  rw [List.filter_append, List.length_append]
  unfold compactIndex
  rw [hdrop, List.filter_cons, if_pos hused]
  simp

theorem emitSlot_next (sl : MapSlot) (e : EmittedKey) (h : emitSlot sl = some e) :
    nextOf e = emitNext sl.keyNext := by
  cases hkey : sl.key <;> rw [emitSlot, hkey] at h
  · cases h
  · injection h with h'; subst h'; rfl
  · injection h with h'; subst h'; rfl
  · cases h

theorem slotUsed_remap (sl : MapSlot) (n : Nat) :
    slotUsed { sl with keyNext := n } = slotUsed sl := rfl

/-- **C4.** For every well-formed map `m` whose keys are strings or
integers, emission first compacts `m` and then: the number of emitted
key/value entries equals `m.count`; every emitted `next` link is either
`-1` (replacing the `0xFFFFFF` sentinel) or a valid slot index strictly
below the emitted array's size; and the `j`-th emitted entry is exactly the
emission of the `j`-th slot of the compacted slot array (skipped empty
slots do not shift later entries). -/
theorem C4_map_emission (m : BMap) (hinv : MapInvariant m)
    (hkeys : ∀ sl ∈ m.slots, ∀ t, sl.key ≠ .kother t) :
    ∃ entries, m_solidify_map m = .ok entries ∧
      entries.length = m.count ∧
      (∀ e ∈ entries, nextOf e = -1 ∨
        (0 ≤ nextOf e ∧ nextOf e < (entries.length : Int))) ∧
      (∀ j, entries.get? j = ((be_map_compact m).slots.get? j).bind emitSlot) := by
  obtain ⟨hcount, hsize, hchain⟩ := hinv
  set comp := (be_map_compact m).slots with hcomp
  have hmem : ∀ sl ∈ comp, ∃ sl0, sl0 ∈ m.slots.filter slotUsed ∧
      sl = { sl0 with keyNext := if sl0.keyNext = sentinel then sentinel
                                 else compactIndex m.slots sl0.keyNext } := by
    intro sl hsl
    rw [hcomp] at hsl
    simp only [be_map_compact, List.mem_map] at hsl
    obtain ⟨sl0, hsl0, heq⟩ := hsl
    exact ⟨sl0, hsl0, heq.symm⟩
  have hcu : ∀ sl ∈ comp, slotUsed sl = true := by
    intro sl hsl
    obtain ⟨sl0, hsl0, heq⟩ := hmem sl hsl
    rw [heq, slotUsed_remap]
    exact (List.mem_filter.mp hsl0).2
  have hknu : ∀ sl ∈ comp, ∀ t, sl.key ≠ .kother t := by
    intro sl hsl t
    obtain ⟨sl0, hsl0, heq⟩ := hmem sl hsl
    rw [heq]
    exact hkeys sl0 (List.mem_filter.mp hsl0).1 t
  have hsome : ∀ sl ∈ comp, (emitSlot sl).isSome = true := by
    intro sl hsl
    have hu := hcu sl hsl
    have hk := hknu sl hsl
    cases hkey : sl.key
    · rw [slotUsed, hkey] at hu; simp at hu
    · simp [emitSlot, hkey]
    · simp [emitSlot, hkey]
    · exact absurd hkey (hk _)
  have hlen : comp.length = m.count := by
    rw [hcomp]
    simp only [be_map_compact, List.length_map]
    omega
  obtain ⟨hflen, hfget⟩ := filterMap_all_some emitSlot comp hsome
  refine ⟨comp.filterMap emitSlot, ?_, ?_, ?_, ?_⟩
  · rw [m_solidify_map, ← hcomp]
    exact loop_no_other comp hknu
  · rw [hflen, hlen]
  · intro e he
    obtain ⟨sl, hsl, hemit⟩ := List.mem_filterMap.mp he
    obtain ⟨sl0, hsl0, heq⟩ := hmem sl hsl
    rw [emitSlot_next sl e hemit, heq]
    by_cases hs : sl0.keyNext = sentinel
    · left
      simp [emitNext, hs]
    · right
      have hin : sl0 ∈ m.slots := (List.mem_filter.mp hsl0).1
      have hu0 : slotUsed sl0 = true := (List.mem_filter.mp hsl0).2
      obtain ⟨hlt, htu⟩ := hchain sl0 hin hu0 hs
      have hci := compactIndex_lt m.slots sl0.keyNext hlt htu
      have hlef : (m.slots.filter slotUsed).length ≤ m.slots.length :=
        List.length_filter_le _ _
      have hne : compactIndex m.slots sl0.keyNext ≠ sentinel := by omega
      simp only [emitNext, hs, if_false, hne, if_neg hne]
      constructor
      · positivity
      · rw [hflen, hlen, hcount]
        exact_mod_cast hci
  · intro j
    exact hfget j

/-- Witness for C4 at a concrete two-slot map
`{ "a" -> (next = 1), 7 -> (next = sentinel) }` with `count = 2`. -/
theorem C4_map_emission_witness :
    ∃ entries,
      m_solidify_map ⟨[⟨.kstr [97], 1⟩, ⟨.kint 7, sentinel⟩], 2⟩ = .ok entries ∧
      entries.length = 2 := by
  obtain ⟨entries, h1, h2, -, -⟩ :=
    C4_map_emission ⟨[⟨.kstr [97], 1⟩, ⟨.kint 7, sentinel⟩], 2⟩ (by decide)
      (by
        intro sl hsl t
        rcases List.mem_cons.mp hsl with h | h
        · subst h; simp
        · rcases List.mem_cons.mp h with h2 | h2
          · subst h2; simp
          · cases h2)
  exact ⟨entries, h1, h2⟩

end Solidify
